import Mathlib

/-!
# nautical: cargo/repo/internal.go

A shallow embedding of the streaming repository in `cargo/repo/internal.go`
and the properties its specification states about it.

Conventions of the embedding

* Go's `(model.Entity, error)` return pair is a pair (`Result`) of an
  interface value, which may be nil, and an optional error: the source
  returns an entity together with an error on some paths.
* `model.NewInternal` (the entity factory) lives in package `model`; it is a
  parameter of every operation that reaches it.  The outcome of its k-th
  call is `factory store k`, and the number of calls made so far is threaded
  through the operations as explicit state.
* `*sql.DB` is the external store.  It is described by the rows of table
  `internal`, the errors its driver reports, and its SQL engine; statements
  are kept as the shape of the SQL text the source builds.  The source names
  no driver, so what differs from one engine to the next (how `LIKE` reads a
  column and compares characters, how a column value is ranked against a
  bound argument) is a parameter of the store (`Engine`).
* A channel is described by what its producer did to it: the entities sent,
  in order, and whether it was closed.  Sends on an unbuffered channel
  complete when a consumer receives, so a producer trace is what a consumer
  that keeps receiving observes.  Sending on or closing a closed channel
  panics.
* `defer statement.Close()` and `defer rows.Close()` release driver
  resources and have no effect on any value described here.
-/

namespace model

/-- A `[]byte` value. -/
abbrev Bytes := List Nat

/-- A `time.Time` value: its instant, as a count of clock ticks since the
epoch, and the offset of its location east of UTC, in the same ticks. -/
structure Time where
  instant : Int
  offset : Int
  deriving DecidableEq, Repr

/-- A numeral is the instant that many ticks after the epoch, in UTC. -/
instance (n : Nat) : OfNat Time n := ⟨⟨n, 0⟩⟩

/-- Modelled from the spec: the struct `model.Internal` of package `model`,
with the eight fields the repository assigns (`Type` is spelt `Type_`), and
`handle` for whatever else the factory stores in the value (the store-backed
handle of the specification), which the repository never touches. -/
structure Internal where
  ID : Int
  UUID : Bytes
  Added : Time
  Updated : Time
  Flag : Nat
  Type_ : String
  Origin : String
  Data : Bytes
  handle : Nat
  deriving DecidableEq, Repr

/-- Modelled from the spec: a value of interface type `model.Entity`. It is
the nil interface, a (non-nil) `*model.Internal`, or a value of some other
implementing type, of which the repository can observe nothing but that the
type assertion `entity.(*model.Internal)` fails. -/
inductive Entity where
  | nil
  | internal (e : Internal)
  | foreign (tag : Nat)
  deriving DecidableEq, Repr

end model

namespace repo

open model

/-- Go `error` values that reach the repository. -/
inductive Error where
  /-- The sentinel `sql.ErrNoRows`. -/
  | errNoRows
  /-- The error of `fmt.Errorf("Cannot cast to Internal: %#v", entity)`. -/
  | cannotCast (entity : Entity)
  /-- The driver rejects the statement text: it names no column `field`. -/
  | noSuchColumn (field : String)
  /-- The driver rejects the arguments bound to a statement. -/
  | badArgs
  /-- Scan cannot convert the column at the given position. -/
  | scan (column : Nat)
  /-- Any other error of the store, the driver or the factory. -/
  | external (code : Nat)
  deriving DecidableEq, Repr

/-- The pair `(model.Entity, error)` a Go function returns; the error `none`
is `nil`. -/
abbrev Result := Entity × Option Error

/-! ## The store (`*sql.DB`) -/

/-- One row of table `internal`; `none` is SQL `NULL`. -/
structure Row where
  id : Option Int
  uuid : Option Bytes
  added : Option Time
  updated : Option Time
  flag : Option Int
  type_ : Option String
  origin : Option String
  data : Option Bytes
  deriving DecidableEq, Repr

/-- A value bound to a `?` placeholder. -/
inductive Arg where
  | int (i : Int)
  | text (s : String)
  | time (t : Time)
  deriving DecidableEq, Repr

/-- The `WHERE` clause of the statement texts the repository builds. The
strings are the `field` arguments the source interpolates with
`fmt.Sprintf`. -/
inductive Where where
  /-- No clause (`FROM internal;`). -/
  | all
  /-- The clause `WHERE id = ?`. -/
  | idEq
  /-- The clause `WHERE %s LIKE ?`. -/
  | like (field : String)
  /-- The clause `WHERE %s = ?`. -/
  | eq (field : String)
  /-- The clause `WHERE %s < ?`. -/
  | lt (field : String)
  /-- The clause `WHERE %s > ?`. -/
  | gt (field : String)
  /-- The clause `WHERE %s > ? AND %s < ?`. -/
  | gtAndLt (field1 field2 : String)
  deriving DecidableEq, Repr

/-- A statement text: whether the select list starts with `id` (every
statement but the one of `Get`) and the `WHERE` clause. -/
structure Statement where
  withId : Bool
  cond : Where
  deriving DecidableEq, Repr

/-- A column value. -/
inductive Val where
  | int (i : Int)
  | text (s : String)
  | bytes (b : Bytes)
  | time (t : Time)
  deriving DecidableEq, Repr

/-- The SQL engine and driver behind the store, as far as the statements of
the repository exercise them.
* `likeText` is the text `LIKE` reads for a column value (engines convert
  numbers to text; a driver may store a `time.Time` as text); `none` when
  `LIKE` selects nothing whatever the pattern.
* `likeCharEq` is how `LIKE` compares a pattern character with a character
  of that text (exactly, or ignoring the case of ASCII letters).
* `likeEscape` is the escape character `LIKE` has when the statement gives
  none (the backslash on some engines, none on others).
* `compare` ranks a column value against a bound argument for `=`, `<` and
  `>`: `none` when the comparison selects nothing (a value the engine does
  not rank against the argument). A driver that stores a `time.Time` as
  zone-stamped text ranks by that text, not by the instant. -/
structure Engine where
  likeText : Val → Option (List Char)
  likeCharEq : Char → Char → Bool
  likeEscape : Option Char
  compare : Val → Arg → Option Ordering

/-- The store behind `*sql.DB`: the rows of table `internal` in storage
order, the failures of the connection or driver, which may strike when a
statement is prepared and when it is executed, and the engine. -/
structure DB where
  rows : List Row
  prepareFault : Statement → Option Error
  queryFault : Statement → List Arg → Option Error
  engine : Engine

/-- The columns of table `internal`. -/
def isColumn (field : String) : Bool :=
  field = "id" || field = "uuid" || field = "added" || field = "updated" ||
  field = "flag" || field = "type" || field = "origin" || field = "data"

/-- The value of a named column in a row; `none` for `NULL` and for a name
that is no column. -/
def Row.col (r : Row) (field : String) : Option Val :=
  if field = "id" then r.id.map Val.int
  else if field = "uuid" then r.uuid.map Val.bytes
  else if field = "added" then r.added.map Val.time
  else if field = "updated" then r.updated.map Val.time
  else if field = "flag" then r.flag.map Val.int
  else if field = "type" then r.type_.map Val.text
  else if field = "origin" then r.origin.map Val.text
  else if field = "data" then r.data.map Val.bytes
  else none

/-- What a character of a `LIKE` pattern stands for: any run of characters
(`%`), any one character (`_`), or the character itself. -/
inductive LikeToken where
  | run
  | one
  | lit (c : Char)
  deriving DecidableEq, Repr

/-- Reading a `LIKE` pattern on an engine with the given escape character:
`%` and `_` are wildcards, the escape character makes the pattern character
after it an ordinary one, every other character is ordinary. The flag tells
that the character before was the escape character. An escape character
that is itself `%` or `_` is not considered. -/
def likeTokens (escape : Option Char) : Bool → List Char → List LikeToken
  | _, [] => []
  | true, c :: p => .lit c :: likeTokens escape false p
  | false, c :: p =>
    if c = '%' then .run :: likeTokens escape false p
    else if c = '_' then .one :: likeTokens escape false p
    else if escape = some c then likeTokens escape true p
    else .lit c :: likeTokens escape false p

/-- Matching a read pattern against a text: a run matches any run of
characters (also the empty one), `one` matches exactly one character, an
ordinary character matches the characters the engine holds equal to it. -/
def matchTokens (charEq : Char → Char → Bool) : List LikeToken → List Char → Bool
  | [], s => s.isEmpty
  | .run :: p, s => s.tails.any (fun t => matchTokens charEq p t)
  | .one :: _, [] => false
  | .one :: p, _ :: s => matchTokens charEq p s
  | .lit _ :: _, [] => false
  | .lit c :: p, d :: s => charEq c d && matchTokens charEq p s

/-- SQL `LIKE` of a pattern against a text, for an engine with the given
escape character and character comparison. -/
def likeMatch (escape : Option Char) (charEq : Char → Char → Bool)
    (pattern text : List Char) : Bool :=
  matchTokens charEq (likeTokens escape false pattern) text

/-- The comparison `id = ?` of the point query, with an integer bound: the
integer key equals the argument. -/
def Val.eqArg : Val → Arg → Bool
  | .int i, .int j => decide (i = j)
  | _, _ => false

/-- The comparisons `column = ?`, `column < ?` and `column > ?` of an engine:
the engine ranks the column value against the argument as `o`. -/
def Engine.ranks (e : Engine) (o : Ordering) (v : Val) (a : Arg) : Bool :=
  decide (e.compare v a = some o)

/-- The comparison `column LIKE ?` of an engine, with a text bound. -/
def Engine.like (e : Engine) (v : Val) (a : Arg) : Bool :=
  match a, e.likeText v with
  | .text pattern, some s => likeMatch e.likeEscape e.likeCharEq pattern.data s
  | _, _ => false

/-- Apply a comparison to a column of a row; a `NULL` column selects
nothing. -/
def Row.test (r : Row) (field : String) (cmp : Val → Arg → Bool) (a : Arg) : Bool :=
  match r.col field with
  | some v => cmp v a
  | none => false

/-- Whether a row satisfies a `WHERE` clause under the bound arguments, on
an engine. -/
def Where.holds (e : Engine) : Where → List Arg → Row → Bool
  | .all, _, _ => true
  | .idEq, [a], r => r.test "id" Val.eqArg a
  | .like field, [a], r => r.test field e.like a
  | .eq field, [a], r => r.test field (e.ranks .eq) a
  | .lt field, [a], r => r.test field (e.ranks .lt) a
  | .gt field, [a], r => r.test field (e.ranks .gt) a
  | .gtAndLt field1 field2, [a, b], r =>
    r.test field1 (e.ranks .gt) a && r.test field2 (e.ranks .lt) b
  | _, _, _ => false

/-- The column names a clause mentions. -/
def Where.fields : Where → List String
  | .all => []
  | .idEq => ["id"]
  | .like f => [f]
  | .eq f => [f]
  | .lt f => [f]
  | .gt f => [f]
  | .gtAndLt f g => [f, g]

/-- The number of `?` placeholders of a clause. -/
def Where.arity : Where → Nat
  | .all => 0
  | .gtAndLt _ _ => 2
  | _ => 1

/-- The call `db.Prepare(text)`: a connection or driver failure is reported,
and so is a statement naming something that is no column of the table. -/
def DB.Prepare (db : DB) (st : Statement) : Except Error Statement :=
  match db.prepareFault st with
  | some err => .error err
  | none =>
    match st.cond.fields.find? (fun f => !isColumn f) with
    | some f => .error (.noSuchColumn f)
    | none => .ok st

/-- The call `statement.Query(args...)`: the cursor over the selected rows,
in storage order, or the failure of the execution. -/
def DB.Query (db : DB) (st : Statement) (args : List Arg) : Except Error (List Row) :=
  match db.queryFault st args with
  | some err => .error err
  | none =>
    if args.length = st.cond.arity then
      .ok (db.rows.filter (fun r => st.cond.holds db.engine args r))
    else .error .badArgs

/-- The call `db.Query(text)`, which prepares and executes in one step. -/
def DB.QueryText (db : DB) (st : Statement) : Except Error (List Row) :=
  match db.Prepare st with
  | .error err => .error err
  | .ok st => db.Query st []

/-! ## Decoding rows (`Scan`) -/

/-- The eight local variables `Scan` fills in. -/
structure Scanned where
  id : Int
  uuid : Bytes
  added : Time
  updated : Time
  flag : Nat
  itype : String
  origin : String
  data : Bytes
  deriving DecidableEq, Repr

/-- Scan one column that must not be `NULL`. -/
def scanCol {α : Type} (column : Nat) : Option α → Except Error α
  | some v => .ok v
  | none => .error (.scan column)

/-- Scan an integer column into a `uint8`: `NULL` and values outside
`0..255` are conversion errors. -/
def scanUint8 (column : Nat) : Option Int → Except Error Nat
  | some v => if 0 ≤ v ∧ v < 256 then .ok v.toNat else .error (.scan column)
  | none => .error (.scan column)

/-- Scan a column into a `[]byte`: `NULL` becomes the nil slice. -/
def scanBytes : Option Bytes → Bytes
  | some b => b
  | none => []

/-- The seven destinations of `Scan` in `Get` (the select list has no `id`;
`id` is the argument of `Get`). Columns are converted left to right and the
first failure is the error returned. -/
def Row.Scan7 (r : Row) (id : Int) : Except Error Scanned := do
  let uuid := scanBytes r.uuid
  let added ← scanCol 1 r.added
  let updated ← scanCol 2 r.updated
  let flag ← scanUint8 3 r.flag
  let itype ← scanCol 4 r.type_
  let origin ← scanCol 5 r.origin
  let data := scanBytes r.data
  return ⟨id, uuid, added, updated, flag, itype, origin, data⟩

/-- The eight destinations of `rows.Scan` in `Process`. -/
def Row.Scan8 (r : Row) : Except Error Scanned := do
  let id ← scanCol 0 r.id
  let uuid := scanBytes r.uuid
  let added ← scanCol 2 r.added
  let updated ← scanCol 3 r.updated
  let flag ← scanUint8 4 r.flag
  let itype ← scanCol 5 r.type_
  let origin ← scanCol 6 r.origin
  let data := scanBytes r.data
  return ⟨id, uuid, added, updated, flag, itype, origin, data⟩

/-- The call `statement.QueryRow(args...).Scan(...)` of `Get`: the failure of
the execution, `sql.ErrNoRows` when nothing is selected, and otherwise the
scan of the first selected row. -/
def DB.QueryRowScan (db : DB) (st : Statement) (id : Int) : Except Error Scanned :=
  match db.Query st [Arg.int id] with
  | .error err => .error err
  | .ok [] => .error .errNoRows
  | .ok (r :: _) => r.Scan7 id

/-! ## The repository -/

/-- The entity factory `model.NewInternal`: its outcome on a store at its
k-th call. -/
abbrev Factory := DB → Nat → Result

/-- The struct `repo.Internal`; the map `Crates` is a partial function. -/
structure Internal where
  Store : DB
  Crates : Int → Option model.Internal

/-- The function `NewInternal` of package `repo`: an empty index. -/
def NewInternal (store : DB) : Internal :=
  { Store := store, Crates := fun _ => none }

/-- The method `Create`: one call of the factory. -/
def Internal.Create (factory : Factory) (self : Internal) (calls : Nat) : Result × Nat :=
  (factory self.Store calls, calls + 1)

/-- The method `Import`. -/
def Internal.Import (factory : Factory) (self : Internal) (calls : Nat)
    (id : Int) (uuid : Bytes) (added updated : Time) (flag : Nat)
    (itype origin : String) (data : Bytes) : Result × Nat :=
  match self.Create factory calls with
  | ((entity, some err), calls) => ((entity, some err), calls)
  | ((entity, none), calls) =>
    match entity with
    | .internal internal =>
      ((.internal { internal with
          ID := id, UUID := uuid, Added := added, Updated := updated,
          Flag := flag, Type_ := itype, Origin := origin, Data := data }, none), calls)
    | _ => ((entity, some (.cannotCast entity)), calls)

/-- The statement text of `Get`. -/
def getStatement : Statement := { withId := false, cond := .idEq }

/-- The method `Get`. -/
def Internal.Get (factory : Factory) (self : Internal) (calls : Nat) (id : Int) :
    Result × Nat :=
  match self.Store.Prepare getStatement with
  | .error err => ((.nil, some err), calls)
  | .ok statement =>
    match self.Store.QueryRowScan statement id with
    | .error err => ((.nil, some err), calls)
    | .ok s =>
      self.Import factory calls id s.uuid s.added s.updated s.flag s.itype s.origin s.data

/-! ## Streams -/

/-- The two ways a channel operation panics. -/
inductive Panic where
  | sendOnClosed
  | closeOfClosed
  deriving DecidableEq, Repr

/-- A `Stream` (a `chan model.Entity`), as its producer leaves it. -/
structure Stream where
  sent : List Entity
  closed : Bool
  deriving DecidableEq, Repr

/-- The expression `make(Stream)`. -/
def Stream.make : Stream := { sent := [], closed := false }

/-- The statement `stream <- entity`. -/
def Stream.send (stream : Stream) (entity : Entity) : Except Panic Stream :=
  if stream.closed then .error .sendOnClosed
  else .ok { stream with sent := stream.sent ++ [entity] }

/-- The statement `close(stream)`. -/
def Stream.close (stream : Stream) : Except Panic Stream :=
  if stream.closed then .error .closeOfClosed
  else .ok { stream with closed := true }

/-- The body of the loop of `Load` for one received element. -/
def Internal.store (self : Internal) (entity : Entity) : Internal :=
  match entity with
  | .internal internal =>
    { self with Crates := fun k => if k = internal.ID then some internal else self.Crates k }
  | _ => self

/-- The method `Load`. The loop `for entity := range stream` ends when the
stream is closed and drained; on a stream its producer never closes it
blocks forever, and `Load` returns nothing. -/
def Internal.Load (self : Internal) (stream : Stream) : Option Internal :=
  if stream.closed then some (stream.sent.foldl Internal.store self) else none

/-- The loop `for rows.Next() { ... }` of `Process`, over the rows the
cursor still holds. -/
def Internal.processRows (factory : Factory) (self : Internal) :
    Nat → Stream → List Row → Except Panic (Stream × Nat)
  | calls, stream, [] => .ok (stream, calls)
  | calls, stream, r :: rows =>
    match r.Scan8 with
    | .error _ => Internal.processRows factory self calls stream rows
    | .ok s =>
      match self.Import factory calls s.id s.uuid s.added s.updated s.flag s.itype
          s.origin s.data with
      | ((_, some _), calls) => Internal.processRows factory self calls stream rows
      | ((entity, none), calls) =>
        match stream.send entity with
        | .error p => .error p
        | .ok stream => Internal.processRows factory self calls stream rows

/-- The method `Process`: pump the cursor into the stream, then close it. -/
def Internal.Process (factory : Factory) (self : Internal) (calls : Nat)
    (stream : Stream) (rows : List Row) : Except Panic (Stream × Nat) :=
  match Internal.processRows factory self calls stream rows with
  | .error p => .error p
  | .ok (stream, calls) =>
    match stream.close with
    | .error p => .error p
    | .ok stream => .ok (stream, calls)

/-- The method `All`. The result is the stream the caller is handed, as the
goroutine leaves it; on a failure the goroutine returns and the stream stays
as `make` returned it. -/
def Internal.All (factory : Factory) (self : Internal) (calls : Nat) :
    Except Panic (Stream × Nat) :=
  let stream := Stream.make
  match self.Store.QueryText { withId := true, cond := .all } with
  | .error _ => .ok (stream, calls)
  | .ok rows => self.Process factory calls stream rows

/-- The loop `for _, id := range ids { ... }` of `Lookup`. -/
def Internal.lookupIds (factory : Factory) (self : Internal) :
    Nat → Stream → List Int → Except Panic (Stream × Nat)
  | calls, stream, [] => .ok (stream, calls)
  | calls, stream, id :: ids =>
    match self.Get factory calls id with
    | ((entity, none), calls) =>
      match stream.send entity with
      | .error p => .error p
      | .ok stream => Internal.lookupIds factory self calls stream ids
    | ((_, some _), calls) => Internal.lookupIds factory self calls stream ids

/-- The method `Lookup`. -/
def Internal.Lookup (factory : Factory) (self : Internal) (calls : Nat)
    (ids : List Int) : Except Panic (Stream × Nat) :=
  match Internal.lookupIds factory self calls Stream.make ids with
  | .error p => .error p
  | .ok (stream, calls) =>
    match stream.close with
    | .error p => .error p
    | .ok stream => .ok (stream, calls)

/-- The method `Contains`. -/
def Internal.Contains (factory : Factory) (self : Internal) (calls : Nat)
    (field search : String) : Except Panic (Stream × Nat) :=
  let stream := Stream.make
  match self.Store.Prepare { withId := true, cond := .like field } with
  | .error _ => .ok (stream, calls)
  | .ok statement =>
    match self.Store.Query statement [Arg.text ("%" ++ search ++ "%")] with
    | .error _ => .ok (stream, calls)
    | .ok rows => self.Process factory calls stream rows

/-- The method `Equals`. -/
def Internal.Equals (factory : Factory) (self : Internal) (calls : Nat)
    (field search : String) : Except Panic (Stream × Nat) :=
  let stream := Stream.make
  match self.Store.Prepare { withId := true, cond := .eq field } with
  | .error _ => .ok (stream, calls)
  | .ok statement =>
    match self.Store.Query statement [Arg.text search] with
    | .error _ => .ok (stream, calls)
    | .ok rows => self.Process factory calls stream rows

/-- The method `Before`. -/
def Internal.Before (factory : Factory) (self : Internal) (calls : Nat)
    (field : String) (search : Time) : Except Panic (Stream × Nat) :=
  let stream := Stream.make
  match self.Store.Prepare { withId := true, cond := .lt field } with
  | .error _ => .ok (stream, calls)
  | .ok statement =>
    match self.Store.Query statement [Arg.time search] with
    | .error _ => .ok (stream, calls)
    | .ok rows => self.Process factory calls stream rows

/-- The method `After`. -/
def Internal.After (factory : Factory) (self : Internal) (calls : Nat)
    (field : String) (search : Time) : Except Panic (Stream × Nat) :=
  let stream := Stream.make
  match self.Store.Prepare { withId := true, cond := .gt field } with
  | .error _ => .ok (stream, calls)
  | .ok statement =>
    match self.Store.Query statement [Arg.time search] with
    | .error _ => .ok (stream, calls)
    | .ok rows => self.Process factory calls stream rows

/-- The method `Between`. -/
def Internal.Between (factory : Factory) (self : Internal) (calls : Nat)
    (field : String) (before after : Time) : Except Panic (Stream × Nat) :=
  let stream := Stream.make
  match self.Store.Prepare { withId := true, cond := .gtAndLt field field } with
  | .error _ => .ok (stream, calls)
  | .ok statement =>
    match self.Store.Query statement [Arg.time before, Arg.time after] with
    | .error _ => .ok (stream, calls)
    | .ok rows => self.Process factory calls stream rows

/-! ## What the specification speaks of -/

/-- The shape the goroutines of `Contains`, `Equals`, `Before`, `After` and
`Between` share: prepare the statement, execute it with the arguments, pump
the cursor. -/
def Internal.scan (factory : Factory) (self : Internal) (calls : Nat)
    (text : Statement) (args : List Arg) : Except Panic (Stream × Nat) :=
  match self.Store.Prepare text with
  | .error _ => .ok (Stream.make, calls)
  | .ok statement =>
    match self.Store.Query statement args with
    | .error _ => .ok (Stream.make, calls)
    | .ok rows => self.Process factory calls Stream.make rows

/-- The rows of a cursor that decode, in cursor order. -/
def decodable (rows : List Row) : List Scanned :=
  rows.filterMap (fun r => match r.Scan8 with
    | .ok s => some s
    | .error _ => none)

/-- The entity imported from a decoded row by factory call number `k`, when
that import succeeds. -/
def Internal.imported (factory : Factory) (self : Internal) (ks : Nat × Scanned) :
    Option Entity :=
  match self.Import factory ks.1 ks.2.id ks.2.uuid ks.2.added ks.2.updated ks.2.flag
      ks.2.itype ks.2.origin ks.2.data with
  | ((entity, none), _) => some entity
  | ((_, some _), _) => none

/-- The entities imported from the rows of a cursor that decode and import
successfully, in cursor order: every decodable row takes one factory call,
the first of them call number `calls`. -/
def Internal.emitted (factory : Factory) (self : Internal) (calls : Nat) (rows : List Row) :
    List Entity :=
  ((decodable rows).enumFrom calls).filterMap (self.imported factory)

/-- The results of `Get(id)` for the ids of a list, taken in request order:
each call starts from the factory call count the one before it left. -/
def Internal.getEach (factory : Factory) (self : Internal) : Nat → List Int → List Result
  | _, [] => []
  | calls, id :: ids =>
    (self.Get factory calls id).1 ::
      Internal.getEach factory self (self.Get factory calls id).2 ids

/-- The entities of the results that carry a nil error. -/
def successes (results : List Result) : List Entity :=
  results.filterMap (fun r => match r.2 with
    | none => some r.1
    | some _ => none)

/-- The `ID` of an entity the repository can read one from. -/
def entityID : Entity → Option Int
  | .internal e => some e.ID
  | _ => none

/-- A stream element seen as a `*model.Internal` with the given `ID`. -/
def withID (id : Int) : Entity → Option model.Internal
  | .internal e => if e.ID = id then some e else none
  | _ => none

/-- The last element of a list of stream elements that is a
`*model.Internal` with the given `ID`. -/
def lastWithID (id : Int) : List Entity → Option model.Internal
  | [] => none
  | entity :: rest =>
    match lastWithID id rest with
    | some e => some e
    | none => withID id entity

/-- Whether a stream element is a `*model.Internal`. -/
def isInternal : Entity → Bool
  | .internal _ => true
  | _ => false

/-- The stored form of a row written with the given field values. -/
def Row.written (id : Int) (uuid : Bytes) (added updated : Time) (flag : Nat)
    (itype origin : String) (data : Bytes) : Row :=
  { id := some id, uuid := some uuid, added := some added, updated := some updated,
    flag := some (flag : Int), type_ := some itype, origin := some origin, data := some data }

/-- The row of the store that holds the eight values of a decoded row. -/
def Scanned.stored (s : Scanned) : Row :=
  Row.written s.id s.uuid s.added s.updated s.flag s.itype s.origin s.data

/-- The `*model.Internal` with the eight values of a decoded row and the
given handle. -/
def Scanned.entity (s : Scanned) (handle : Nat) : Entity :=
  .internal ⟨s.id, s.uuid, s.added, s.updated, s.flag, s.itype, s.origin, s.data, handle⟩

/-- Whether the engine ranks the value in column `field` of a row strictly
above `t0` and strictly below `t1`. -/
def Row.strictlyBetween (r : Row) (e : Engine) (field : String) (t0 t1 : Time) : Bool :=
  match r.col field with
  | some v => e.ranks .gt v (.time t0) && e.ranks .lt v (.time t1)
  | none => false

/-- An engine ranks instants: a `time.Time` column value is ranked against a
bound `time.Time` by their instants. -/
def Engine.ranksInstants (e : Engine) : Prop :=
  ∀ v t : Time, e.compare (.time v) (.time t) = some (Ord.compare v.instant t.instant)

/-! ## Example data -/

/-- Equality of characters up to the case of ASCII letters. -/
def foldCaseEq (a b : Char) : Bool := a.toLower == b.toLower

/-- The text an example engine's `LIKE` reads: text as it is, an integer in
decimal, a blob byte by byte, a timestamp as the decimal of its instant. -/
def plainText : Val → Option (List Char)
  | .text s => some s.data
  | .int i => some (toString i).data
  | .bytes b => some (b.map Char.ofNat)
  | .time t => some (toString t.instant).data

/-- Ranking by value within a type: integers and instants by number, text in
dictionary order; values of a different type than the argument are not
ranked. -/
def rankByValue : Val → Arg → Option Ordering
  | .int i, .int j => some (compare i j)
  | .text s, .text t => some (compare s t)
  | .time v, .time t => some (compare v.instant t.instant)
  | _, _ => none

/-- Ranking of a driver that stores a `time.Time` as zone-stamped text: by
the wall clock reading first, then by the offset. -/
def rankByWallClock : Val → Arg → Option Ordering
  | .time v, .time t =>
    some ((compare (v.instant + v.offset) (t.instant + t.offset)).then
      (compare v.offset t.offset))
  | v, a => rankByValue v a

/-- An example engine: `LIKE` ignores the case of ASCII letters and has no
escape character; timestamps are ranked as instants. -/
def plainEngine : Engine :=
  { likeText := plainText, likeCharEq := foldCaseEq, likeEscape := none,
    compare := rankByValue }

/-- An example engine that differs from `plainEngine` in ranking timestamps
as zone-stamped text. -/
def zonedEngine : Engine :=
  { likeText := plainText, likeCharEq := foldCaseEq, likeEscape := none,
    compare := rankByWallClock }

/-- The row of the scenario of the specification. -/
def noteRow : Row := Row.written 1 [170] 10 20 1 "note" "web-ui" [1, 2]

/-- A row whose `added` column is `NULL`: it does not decode. -/
def nullRow : Row :=
  { id := some 2, uuid := none, added := none, updated := some 5, flag := some 0,
    type_ := some "note", origin := some "web", data := none }

/-- A row written with id 3. -/
def memoRow : Row := Row.written 3 [172] 30 30 3 "memo" "cli" []

/-- A store with the single row `noteRow` and no failures. -/
def noteDB : DB :=
  { rows := [noteRow], prepareFault := fun _ => none, queryFault := fun _ _ => none,
    engine := plainEngine }

/-- A store holding rows written with ids 1, 2 and 3 and no failures. -/
def threeDB : DB :=
  { rows := [noteRow, Row.written 2 [171] 15 25 2 "note" "api" [], memoRow],
    prepareFault := fun _ => none, queryFault := fun _ _ => none, engine := plainEngine }

/-- A row written at instant 3600 in a location two hours (7200 ticks) east
of UTC. -/
def zonedRow : Row := Row.written 4 [173] ⟨3600, 7200⟩ ⟨3600, 7200⟩ 0 "note" "Web" []

/-- A store with the row `zonedRow`, no failures, and an engine that ranks
timestamps as zone-stamped text. -/
def zonedDB : DB :=
  { rows := [zonedRow], prepareFault := fun _ => none, queryFault := fun _ _ => none,
    engine := zonedEngine }

/-- A store with the row `noteRow` whose driver fails to prepare any
statement. -/
def downDB : DB :=
  { rows := [noteRow], prepareFault := fun _ => some (.external 7),
    queryFault := fun _ _ => none, engine := plainEngine }

/-- A store with the row `noteRow` whose driver prepares statements and
fails to execute them. -/
def brokenDB : DB :=
  { rows := [noteRow], prepareFault := fun _ => none,
    queryFault := fun _ _ => some (.external 8), engine := plainEngine }

/-- A factory that always succeeds with a zero-valued `*model.Internal`. -/
def okFactory : Factory := fun _ k => (.internal ⟨0, [], 0, 0, 0, "", "", [], k⟩, none)

/-- A factory that always fails. -/
def failingFactory : Factory := fun _ _ => (.nil, some (.external 1))

/-- A factory whose call number 0 fails and whose later calls succeed. -/
def flakyFactory : Factory := fun db k =>
  if k = 0 then (.nil, some (.external 9)) else okFactory db k

/-- The values of the rows of `threeDB`, by id. -/
def threeHeld (id : Int) : Scanned :=
  if id = 1 then ⟨1, [170], 10, 20, 1, "note", "web-ui", [1, 2]⟩
  else if id = 2 then ⟨2, [171], 15, 25, 2, "note", "api", []⟩
  else ⟨3, [172], 30, 30, 3, "memo", "cli", []⟩

/-- What `okFactory` returns at its k-th call. -/
def okFresh (k : Nat) : model.Internal := ⟨0, [], 0, 0, 0, "", "", [], k⟩

/-- A first version of the entity with id 1. -/
def draft : model.Internal := ⟨1, [170], 10, 20, 1, "note", "web-ui", [1], 0⟩

/-- The later version of the entity with id 1. -/
def revised : model.Internal := ⟨1, [170], 10, 40, 2, "note", "cli", [2], 1⟩

/-! ## Theorems -/

theorem holds_idEq (e : Engine) (id : Int) (r : Row) :
    Where.holds e .idEq [Arg.int id] r = decide (r.id = some id) := by
  cases r with
  | mk rid uuid added updated flag type_ origin data =>
    cases rid with
    | none => simp [Where.holds, Row.test, Row.col]
    | some v => simp [Where.holds, Row.test, Row.col, Val.eqArg]

theorem prepare_getStatement (db : DB) :
    db.Prepare getStatement =
      match db.prepareFault getStatement with
      | some err => .error err
      | none => .ok getStatement := by
  unfold DB.Prepare
  cases db.prepareFault getStatement with
  | some err => rfl
  | none => simp [getStatement, Where.fields, isColumn]

theorem query_getStatement (db : DB) (id : Int) :
    db.Query getStatement [Arg.int id] =
      match db.queryFault getStatement [Arg.int id] with
      | some err => .error err
      | none => .ok (db.rows.filter (fun r => decide (r.id = some id))) := by
  unfold DB.Query
  cases db.queryFault getStatement [Arg.int id] with
  | some err => rfl
  | none =>
    simp only [getStatement, Where.arity, List.length_singleton, if_true]
    congr 1
    apply List.filter_congr
    intro r _
    exact holds_idEq db.engine id r

theorem filter_head_of_unique {α : Type} (p : α → Bool) (l : List α) (a : α)
    (hmem : a ∈ l) (hp : p a = true) (huniq : ∀ b ∈ l, p b = true → b = a) :
    ∃ tl, l.filter p = a :: tl := by
  have hin : a ∈ l.filter p := List.mem_filter.mpr ⟨hmem, hp⟩
  cases hf : l.filter p with
  | nil => rw [hf] at hin; cases hin
  | cons b tl =>
    have hb : b ∈ l.filter p := by rw [hf]; exact List.mem_cons_self b tl
    have hb2 := List.mem_filter.mp hb
    exact ⟨tl, by rw [huniq b hb2.1 hb2.2]⟩

theorem scan7_written (id : Int) (uuid : Bytes) (added updated : Time) (flag : Nat)
    (itype origin : String) (data : Bytes) (hflag : flag < 256) :
    (Row.written id uuid added updated flag itype origin data).Scan7 id =
      .ok ⟨id, uuid, added, updated, flag, itype, origin, data⟩ := by
  have h : (0 : Int) ≤ (flag : Int) ∧ (flag : Int) < 256 := ⟨by omega, by omega⟩
  simp [Row.written, Row.Scan7, scanCol, scanUint8, scanBytes, h, bind, Except.bind, pure,
    Except.pure]

/-- C1: whenever the factory call succeeds with a `*model.Internal`, `Import`
returns that entity with a nil error, and its fields `ID`, `UUID`, `Added`,
`Updated`, `Flag`, `Type`, `Origin` and `Data` are the eight arguments. -/
theorem Import_assigns_the_eight_fields (factory : Factory) (self : Internal) (calls : Nat)
    (id : Int) (uuid : Bytes) (added updated : Time) (flag : Nat)
    (itype origin : String) (data : Bytes) (fresh : model.Internal)
    (hfactory : factory self.Store calls = (.internal fresh, none)) :
    ∃ e : model.Internal,
      self.Import factory calls id uuid added updated flag itype origin data =
        ((.internal e, none), calls + 1) ∧
      e.ID = id ∧ e.UUID = uuid ∧ e.Added = added ∧ e.Updated = updated ∧
      e.Flag = flag ∧ e.Type_ = itype ∧ e.Origin = origin ∧ e.Data = data := by
  refine ⟨⟨id, uuid, added, updated, flag, itype, origin, data, fresh.handle⟩, ?_,
    rfl, rfl, rfl, rfl, rfl, rfl, rfl, rfl⟩
  simp [Internal.Import, Internal.Create, hfactory]

theorem Import_assigns_the_eight_fields_witness :
    okFactory (NewInternal noteDB).Store 0 =
      (.internal ⟨0, [], 0, 0, 0, "", "", [], 0⟩, none) ∧
    ∃ e : model.Internal,
      (NewInternal noteDB).Import okFactory 0 7 [1] 2 3 4 "t" "o" [5] =
        ((.internal e, none), 0 + 1) ∧
      e.ID = 7 ∧ e.UUID = [1] ∧ e.Added = 2 ∧ e.Updated = 3 ∧
      e.Flag = 4 ∧ e.Type_ = "t" ∧ e.Origin = "o" ∧ e.Data = [5] :=
  ⟨rfl, Import_assigns_the_eight_fields okFactory (NewInternal noteDB) 0 7 [1] 2 3 4 "t" "o" [5]
    ⟨0, [], 0, 0, 0, "", "", [], 0⟩ rfl⟩

/-- C2 as stated fails: the store `noteDB` holds the row written with fields
`(1, [170], 10, 20, 1, "note", "web-ui", [1, 2])`, no other row has id 1, and
yet `Get(1)` returns an error when the factory call fails. -/
theorem Get_round_trip_needs_factory :
    noteRow ∈ noteDB.rows ∧
    (∀ r ∈ noteDB.rows, r.id = some 1 → r = noteRow) ∧
    (NewInternal noteDB).Get failingFactory 0 1 = ((.nil, some (.external 1)), 1) := by
  refine ⟨by simp [noteDB], by simp [noteDB], by decide⟩

/-- C2, amended: if the store holds the row written with fields `(id, uuid,
added, updated, flag, type, origin, data)`, every row with that id is that
row, the point query is prepared and executed without a failure, and the
factory call succeeds with a `*model.Internal`, then `Get(id)` returns, with
a nil error, that entity with exactly those eight field values. -/
theorem Get_round_trip (factory : Factory) (self : Internal) (calls : Nat)
    (id : Int) (uuid : Bytes) (added updated : Time) (flag : Nat)
    (itype origin : String) (data : Bytes) (fresh : model.Internal)
    (hflag : flag < 256)
    (hmem : Row.written id uuid added updated flag itype origin data ∈ self.Store.rows)
    (huniq : ∀ r ∈ self.Store.rows, r.id = some id →
      r = Row.written id uuid added updated flag itype origin data)
    (hprepare : ∃ st, self.Store.Prepare getStatement = .ok st)
    (hquery : ∃ rows, self.Store.Query getStatement [Arg.int id] = .ok rows)
    (hfactory : factory self.Store calls = (.internal fresh, none)) :
    self.Get factory calls id =
      ((.internal ⟨id, uuid, added, updated, flag, itype, origin, data, fresh.handle⟩,
        none), calls + 1) := by
  obtain ⟨tl, htl⟩ := filter_head_of_unique (fun r : Row => decide (r.id = some id))
    self.Store.rows _ hmem (by simp [Row.written]) (by simpa using huniq)
  have hpf : self.Store.prepareFault getStatement = none := by
    obtain ⟨st, hst⟩ := hprepare
    rw [prepare_getStatement] at hst
    cases hc : self.Store.prepareFault getStatement with
    | none => rfl
    | some e => rw [hc] at hst; cases hst
  have hqf : self.Store.queryFault getStatement [Arg.int id] = none := by
    obtain ⟨rows, hrows⟩ := hquery
    rw [query_getStatement] at hrows
    cases hc : self.Store.queryFault getStatement [Arg.int id] with
    | none => rfl
    | some e => rw [hc] at hrows; cases hrows
  have hq : self.Store.QueryRowScan getStatement id =
      .ok ⟨id, uuid, added, updated, flag, itype, origin, data⟩ := by
    unfold DB.QueryRowScan
    rw [query_getStatement, hqf]
    simp only [htl]
    exact scan7_written id uuid added updated flag itype origin data hflag
  unfold Internal.Get
  rw [prepare_getStatement, hpf]
  simp only [hq]
  simp [Internal.Import, Internal.Create, hfactory]

theorem Get_round_trip_witness :
    (1 : Nat) < 256 ∧
    Row.written 1 [170] 10 20 1 "note" "web-ui" [1, 2] ∈
      (NewInternal noteDB).Store.rows ∧
    (NewInternal noteDB).Get okFactory 0 1 =
      ((.internal ⟨1, [170], 10, 20, 1, "note", "web-ui", [1, 2], 0⟩, none), 0 + 1) :=
  ⟨by decide, by simp [NewInternal, noteDB, noteRow],
    Get_round_trip okFactory (NewInternal noteDB) 0 1 [170] 10 20 1 "note" "web-ui" [1, 2]
      ⟨0, [], 0, 0, 0, "", "", [], 0⟩ (by decide) (by simp [NewInternal, noteDB, noteRow])
      (by simp [NewInternal, noteDB, noteRow]) ⟨_, rfl⟩ ⟨_, rfl⟩ rfl⟩

/-- C3: when the store has no row with the id, or preparing the point query
fails, or executing it fails, `Get(id)` returns the nil entity and an error,
without calling the factory. The error is the one the failing step produced:
the error of `Prepare`, else the error of the execution, else
`sql.ErrNoRows`. -/
theorem Get_returns_the_error (factory : Factory) (self : Internal) (calls : Nat) (id : Int)
    (h : (∀ r ∈ self.Store.rows, r.id ≠ some id) ∨
      (∃ e, self.Store.Prepare getStatement = .error e) ∨
      (∃ e, self.Store.Query getStatement [Arg.int id] = .error e)) :
    ∃ err, self.Get factory calls id = ((.nil, some err), calls) ∧
      (∀ e, self.Store.Prepare getStatement = .error e → err = e) ∧
      (∀ e, self.Store.Prepare getStatement = .ok getStatement →
        self.Store.Query getStatement [Arg.int id] = .error e → err = e) ∧
      (self.Store.Prepare getStatement = .ok getStatement →
        (∃ rows, self.Store.Query getStatement [Arg.int id] = .ok rows) →
        err = .errNoRows) := by
  have hp := prepare_getStatement self.Store
  have hq := query_getStatement self.Store id
  cases hpf : self.Store.prepareFault getStatement with
  | some e1 =>
    rw [hpf] at hp
    simp only at hp
    refine ⟨e1, ?_, ?_, ?_, ?_⟩
    · simp [Internal.Get, hp]
    · intro e he; rw [hp] at he; cases he; rfl
    · intro e he; rw [hp] at he; cases he
    · intro he; rw [hp] at he; cases he
  | none =>
    rw [hpf] at hp
    simp only at hp
    cases hqf : self.Store.queryFault getStatement [Arg.int id] with
    | some e2 =>
      rw [hqf] at hq
      simp only at hq
      refine ⟨e2, ?_, ?_, ?_, ?_⟩
      · simp [Internal.Get, hp, DB.QueryRowScan, hq]
      · intro e he; rw [hp] at he; cases he
      · intro e _ he; rw [hq] at he; cases he; rfl
      · rintro _ ⟨rows, he⟩; rw [hq] at he; cases he
    | none =>
      rw [hqf] at hq
      simp only at hq
      have hnone : ∀ r ∈ self.Store.rows, r.id ≠ some id := by
        rcases h with h | ⟨e, he⟩ | ⟨e, he⟩
        · exact h
        · rw [hp] at he; cases he
        · rw [hq] at he; cases he
      have hempty : self.Store.rows.filter (fun r => decide (r.id = some id)) = [] := by
        apply List.filter_eq_nil_iff.mpr
        intro r hr
        simpa using hnone r hr
      rw [hempty] at hq
      refine ⟨.errNoRows, ?_, ?_, ?_, ?_⟩
      · simp [Internal.Get, hp, DB.QueryRowScan, hq]
      · intro e he; rw [hp] at he; cases he
      · intro e _ he; rw [hq] at he; cases he
      · intro _ _; rfl

theorem Get_returns_the_error_witness :
    (∀ r ∈ (NewInternal noteDB).Store.rows, r.id ≠ some 999) ∧
    ∃ err, (NewInternal noteDB).Get okFactory 0 999 = ((.nil, some err), 0) ∧
      (∀ e, (NewInternal noteDB).Store.Prepare getStatement = .error e → err = e) ∧
      (∀ e, (NewInternal noteDB).Store.Prepare getStatement = .ok getStatement →
        (NewInternal noteDB).Store.Query getStatement [Arg.int 999] = .error e → err = e) ∧
      ((NewInternal noteDB).Store.Prepare getStatement = .ok getStatement →
        (∃ rows, (NewInternal noteDB).Store.Query getStatement [Arg.int 999] = .ok rows) →
        err = .errNoRows) :=
  ⟨by decide,
    Get_returns_the_error okFactory (NewInternal noteDB) 0 999 (Or.inl (by decide))⟩

theorem Import_calls (factory : Factory) (self : Internal) (calls : Nat)
    (id : Int) (uuid : Bytes) (added updated : Time) (flag : Nat)
    (itype origin : String) (data : Bytes) :
    (self.Import factory calls id uuid added updated flag itype origin data).2 = calls + 1 := by
  unfold Internal.Import Internal.Create
  rcases hf : factory self.Store calls with ⟨entity, _ | err⟩
  · cases entity <;> rfl
  · rfl

theorem processRows_eq (factory : Factory) (self : Internal) (rows : List Row) :
    ∀ (calls : Nat) (stream : Stream), stream.closed = false →
      Internal.processRows factory self calls stream rows =
        .ok ({ sent := stream.sent ++ self.emitted factory calls rows, closed := false },
          calls + (decodable rows).length) := by
  induction rows with
  | nil =>
    intro calls stream h
    cases stream with
    | mk sent closed =>
      simp only at h
      subst h
      simp [Internal.processRows, Internal.emitted, decodable]
  | cons r rows ih =>
    intro calls stream h
    cases hs : r.Scan8 with
    | error e =>
      have hd : decodable (r :: rows) = decodable rows := by simp [decodable, hs]
      rw [Internal.processRows]
      simp only [hs]
      rw [ih calls stream h, Internal.emitted, Internal.emitted, hd]
    | ok s =>
      have hd : decodable (r :: rows) = s :: decodable rows := by simp [decodable, hs]
      have hc := Import_calls factory self calls s.id s.uuid s.added s.updated s.flag s.itype
        s.origin s.data
      rw [Internal.processRows]
      simp only [hs]
      rcases hi : self.Import factory calls s.id s.uuid s.added s.updated s.flag s.itype
        s.origin s.data with ⟨⟨entity, _ | err⟩, calls1⟩
      · rw [hi] at hc
        simp only at hc
        subst hc
        have hsend : stream.send entity =
            .ok { sent := stream.sent ++ [entity], closed := false } := by
          cases stream with
          | mk sent closed =>
            simp only at h
            subst h
            rfl
        simp only [hsend]
        rw [ih (calls + 1) _ rfl]
        simp [Internal.emitted, hd, List.enumFrom, Internal.imported, hi]
        omega
      · rw [hi] at hc
        simp only at hc
        subst hc
        simp only []
        rw [ih (calls + 1) stream h]
        simp [Internal.emitted, hd, List.enumFrom, Internal.imported, hi]
        omega

theorem Process_eq (factory : Factory) (self : Internal)
    (calls : Nat) (stream : Stream) (rows : List Row) (hopen : stream.closed = false) :
    self.Process factory calls stream rows =
      .ok ({ sent := stream.sent ++ self.emitted factory calls rows, closed := true },
        calls + (decodable rows).length) := by
  unfold Internal.Process
  rw [processRows_eq factory self rows calls stream hopen]
  rfl

/-- C6: on a stream that is still open, `Process` leaves on the stream, after
what it already held, exactly the entities imported from the rows that
decode and import successfully, in cursor order; rows that fail are skipped
and the scan goes on; the stream is closed once, after the last row. -/
theorem Process_emits_imported_rows_then_closes (factory : Factory) (self : Internal)
    (calls : Nat) (stream : Stream) (rows : List Row) (hopen : stream.closed = false) :
    self.Process factory calls stream rows =
      .ok ({ sent := stream.sent ++ self.emitted factory calls rows, closed := true },
        calls + (decodable rows).length) := by
  unfold Internal.Process
  rw [processRows_eq factory self rows calls stream hopen]
  rfl

theorem Process_emits_imported_rows_then_closes_witness :
    Stream.make.closed = false ∧
    (NewInternal noteDB).Process flakyFactory 0 Stream.make [memoRow, nullRow, noteRow, memoRow] =
      .ok (⟨Stream.make.sent ++
            (NewInternal noteDB).emitted flakyFactory 0 [memoRow, nullRow, noteRow, memoRow],
          true⟩,
        0 + (decodable [memoRow, nullRow, noteRow, memoRow]).length) ∧
    (NewInternal noteDB).emitted flakyFactory 0 [memoRow, nullRow, noteRow, memoRow] =
      [.internal ⟨1, [170], 10, 20, 1, "note", "web-ui", [1, 2], 1⟩,
       .internal ⟨3, [172], 30, 30, 3, "memo", "cli", [], 2⟩] :=
  ⟨rfl,
    Process_emits_imported_rows_then_closes flakyFactory (NewInternal noteDB) 0 Stream.make
      [memoRow, nullRow, noteRow, memoRow] rfl,
    by decide⟩

theorem lookupIds_eq (factory : Factory) (self : Internal) (ids : List Int) :
    ∀ (calls : Nat) (stream : Stream), stream.closed = false →
      ∃ calls1, Internal.lookupIds factory self calls stream ids =
        .ok ({ sent := stream.sent ++ successes (self.getEach factory calls ids),
               closed := false }, calls1) := by
  induction ids with
  | nil =>
    intro calls stream h
    cases stream with
    | mk sent closed =>
      simp only at h
      subst h
      exact ⟨calls, by simp [Internal.lookupIds, Internal.getEach, successes]⟩
  | cons id ids ih =>
    intro calls stream h
    rw [Internal.lookupIds, Internal.getEach]
    rcases hg : self.Get factory calls id with ⟨⟨entity, _ | err⟩, calls1⟩
    · have hsend : stream.send entity =
          .ok { sent := stream.sent ++ [entity], closed := false } := by
        cases stream with
        | mk sent closed =>
          simp only at h
          subst h
          rfl
      simp only [hsend]
      obtain ⟨c, hc⟩ := ih calls1 { sent := stream.sent ++ [entity], closed := false } rfl
      exact ⟨c, by rw [hc]; simp [successes]⟩
    · simp only []
      obtain ⟨c, hc⟩ := ih calls1 stream h
      exact ⟨c, by rw [hc]; simp [successes]⟩

theorem Get_ok_internal (factory : Factory) (self : Internal) (calls : Nat) (id : Int)
    (entity : Entity) (calls1 : Nat)
    (h : self.Get factory calls id = ((entity, none), calls1)) : entityID entity = some id := by
  unfold Internal.Get at h
  cases hp : self.Store.Prepare getStatement with
  | error e => rw [hp] at h; simp at h
  | ok st =>
    rw [hp] at h
    simp only at h
    cases hq : self.Store.QueryRowScan st id with
    | error e => rw [hq] at h; simp at h
    | ok s =>
      rw [hq] at h
      simp only at h
      unfold Internal.Import Internal.Create at h
      rcases hf : factory self.Store calls with ⟨e0, _ | err⟩
      · rw [hf] at h
        cases e0 with
        | nil => simp at h
        | foreign t => simp at h
        | internal i =>
          simp only [Prod.mk.injEq] at h
          rw [← h.1.1]
          rfl
      · rw [hf] at h
        simp at h

theorem Get_absent (factory : Factory) (self : Internal) (calls : Nat) (id : Int)
    (h : ∀ r ∈ self.Store.rows, r.id ≠ some id) :
    ∃ err, self.Get factory calls id = ((.nil, some err), calls) := by
  unfold Internal.Get
  cases hp : self.Store.Prepare getStatement with
  | error e => exact ⟨e, rfl⟩
  | ok st =>
    have hst : st = getStatement := by
      rw [prepare_getStatement] at hp
      cases hpf : self.Store.prepareFault getStatement with
      | some e => rw [hpf] at hp; cases hp
      | none => rw [hpf] at hp; cases hp; rfl
    subst hst
    simp only
    unfold DB.QueryRowScan
    rw [query_getStatement]
    cases hqf : self.Store.queryFault getStatement [Arg.int id] with
    | some e => exact ⟨e, rfl⟩
    | none =>
      have hempty : self.Store.rows.filter (fun r => decide (r.id = some id)) = [] := by
        apply List.filter_eq_nil_iff.mpr
        intro r hr
        simpa using h r hr
      simp only [hempty]
      exact ⟨.errNoRows, rfl⟩

theorem getEach_absent (factory : Factory) (self : Internal) (ids : List Int)
    (h : ∀ id ∈ ids, ∀ r ∈ self.Store.rows, r.id ≠ some id) :
    ∀ calls, successes (self.getEach factory calls ids) = [] := by
  induction ids with
  | nil => intro calls; rfl
  | cons id ids ih =>
    intro calls
    obtain ⟨err, he⟩ := Get_absent factory self calls id (h id (List.mem_cons_self id ids))
    rw [Internal.getEach, he]
    simp only [successes, List.filterMap_cons]
    exact ih (fun i hi => h i (List.mem_cons_of_mem id hi)) calls

theorem getEach_all_ok (factory : Factory) (self : Internal) (ids : List Int) :
    ∀ calls, (∀ r ∈ self.getEach factory calls ids, r.2 = none) →
      (successes (self.getEach factory calls ids)).map entityID = ids.map some := by
  induction ids with
  | nil => intro calls _; rfl
  | cons id ids ih =>
    intro calls h
    rw [Internal.getEach] at h ⊢
    rcases hg : self.Get factory calls id with ⟨⟨entity, err⟩, calls1⟩
    rw [hg] at h
    have herr : err = none := h _ (List.mem_cons_self _ _)
    subst herr
    have hid := Get_ok_internal factory self calls id entity calls1 hg
    have htl := ih calls1 (fun r hr => h r (List.mem_cons_of_mem _ hr))
    simp only [successes, List.filterMap_cons, List.map_cons, hid]
    exact congrArg _ htl

theorem Get_of_stored (factory : Factory) (self : Internal) (calls : Nat) (id : Int)
    (s : Scanned) (fresh : model.Internal)
    (hid : s.id = id) (hflag : s.flag < 256)
    (hmem : s.stored ∈ self.Store.rows)
    (huniq : ∀ r ∈ self.Store.rows, r.id = some id → r = s.stored)
    (hprepare : ∃ st, self.Store.Prepare getStatement = .ok st)
    (hquery : ∃ rows, self.Store.Query getStatement [Arg.int id] = .ok rows)
    (hfactory : factory self.Store calls = (.internal fresh, none)) :
    self.Get factory calls id = ((s.entity fresh.handle, none), calls + 1) := by
  subst hid
  obtain ⟨tl, htl⟩ := filter_head_of_unique (fun r : Row => decide (r.id = some s.id))
    self.Store.rows _ hmem (by simp [Scanned.stored, Row.written]) (by simpa using huniq)
  have hpf : self.Store.prepareFault getStatement = none := by
    obtain ⟨st, hst⟩ := hprepare
    rw [prepare_getStatement] at hst
    cases hc : self.Store.prepareFault getStatement with
    | none => rfl
    | some e => rw [hc] at hst; cases hst
  have hqf : self.Store.queryFault getStatement [Arg.int s.id] = none := by
    obtain ⟨rows, hrows⟩ := hquery
    rw [query_getStatement] at hrows
    cases hc : self.Store.queryFault getStatement [Arg.int s.id] with
    | none => rfl
    | some e => rw [hc] at hrows; cases hrows
  have hq : self.Store.QueryRowScan getStatement s.id = .ok s := by
    unfold DB.QueryRowScan
    rw [query_getStatement, hqf]
    simp only [htl]
    exact scan7_written s.id s.uuid s.added s.updated s.flag s.itype s.origin s.data hflag
  unfold Internal.Get
  rw [prepare_getStatement, hpf]
  simp only [hq]
  simp [Internal.Import, Internal.Create, hfactory, Scanned.entity]

theorem lookupIds_of_stored (factory : Factory) (self : Internal)
    (held : Int → Scanned) (fresh : Nat → model.Internal)
    (hprepare : ∃ st, self.Store.Prepare getStatement = .ok st)
    (hfactory : ∀ k, factory self.Store k = (.internal (fresh k), none))
    (ids : List Int) :
    (∀ id ∈ ids, ∃ rows, self.Store.Query getStatement [Arg.int id] = .ok rows) →
    (∀ id ∈ ids, (held id).id = id ∧ (held id).flag < 256 ∧
      (held id).stored ∈ self.Store.rows ∧
      ∀ r ∈ self.Store.rows, r.id = some id → r = (held id).stored) →
    ∀ (calls : Nat) (stream : Stream), stream.closed = false →
      Internal.lookupIds factory self calls stream ids =
        .ok (⟨stream.sent ++ (ids.enumFrom calls).map
                (fun ki => (held ki.2).entity (fresh ki.1).handle), false⟩,
          calls + ids.length) := by
  induction ids with
  | nil =>
    intro _ _ calls stream h
    cases stream with
    | mk sent closed =>
      simp only at h
      subst h
      simp [Internal.lookupIds]
  | cons id ids ih =>
    intro hquery hheld calls stream h
    obtain ⟨hid, hflag, hmem, huniq⟩ := hheld id (List.mem_cons_self id ids)
    have hg := Get_of_stored factory self calls id (held id) (fresh calls) hid hflag hmem huniq
      hprepare (hquery id (List.mem_cons_self id ids)) (hfactory calls)
    have hsend : stream.send ((held id).entity (fresh calls).handle) =
        .ok ⟨stream.sent ++ [(held id).entity (fresh calls).handle], false⟩ := by
      cases stream with
      | mk sent closed =>
        simp only at h
        subst h
        rfl
    rw [Internal.lookupIds, hg]
    simp only [hsend]
    rw [ih (fun i hi => hquery i (List.mem_cons_of_mem id hi))
      (fun i hi => hheld i (List.mem_cons_of_mem id hi)) (calls + 1) _ rfl]
    simp [List.enumFrom]
    omega

/-- C4 as stated fails: the store `threeDB` holds rows with ids 1, 2 and 3,
and `Lookup(3, 1, 2)` emits nothing (a closed empty stream) when the factory
calls fail, because every `Get` then fails. -/
theorem Lookup_needs_the_gets_to_succeed :
    (∀ id ∈ [3, 1, 2], (threeHeld id).id = id ∧ (threeHeld id).stored ∈ threeDB.rows) ∧
    (NewInternal threeDB).Lookup failingFactory 0 [3, 1, 2] = .ok (⟨[], true⟩, 3) :=
  ⟨by decide, rfl⟩

/-- C4, amended: for every list of ids, `Lookup` leaves on its stream exactly
the entities of the successful `Get(id)` calls, in request order, and closes
the stream after the last id; ids whose `Get` fails contribute nothing. When
no id of the list is in the store the stream is closed and empty. When the
store holds a row for every id of the list, each id unique, the point query
is prepared and executed without error and every factory call succeeds with
a `*model.Internal`, the stream holds the entities of those rows, one per id
requested and in request order (so `Lookup(3, 1, 2)` emits 3, 1, 2). -/
theorem Lookup_emits_successful_gets_in_request_order (factory : Factory) (self : Internal)
    (calls : Nat) (ids : List Int) :
    (∃ calls1, self.Lookup factory calls ids =
      .ok (⟨successes (self.getEach factory calls ids), true⟩, calls1)) ∧
    ((∀ id ∈ ids, ∀ r ∈ self.Store.rows, r.id ≠ some id) →
      ∃ calls1, self.Lookup factory calls ids = .ok (⟨[], true⟩, calls1)) ∧
    (∀ (held : Int → Scanned) (fresh : Nat → model.Internal),
      (∃ st, self.Store.Prepare getStatement = .ok st) →
      (∀ id ∈ ids, ∃ rows, self.Store.Query getStatement [Arg.int id] = .ok rows) →
      (∀ k, factory self.Store k = (.internal (fresh k), none)) →
      (∀ id ∈ ids, (held id).id = id ∧ (held id).flag < 256 ∧
        (held id).stored ∈ self.Store.rows ∧
        ∀ r ∈ self.Store.rows, r.id = some id → r = (held id).stored) →
      self.Lookup factory calls ids =
        .ok (⟨(ids.enumFrom calls).map (fun ki => (held ki.2).entity (fresh ki.1).handle),
              true⟩, calls + ids.length)) := by
  have hmain : ∃ calls1, self.Lookup factory calls ids =
      .ok (⟨successes (self.getEach factory calls ids), true⟩, calls1) := by
    obtain ⟨c, hc⟩ := lookupIds_eq factory self ids calls Stream.make rfl
    refine ⟨c, ?_⟩
    unfold Internal.Lookup
    rw [hc]
    simp [Stream.make, Stream.close]
  refine ⟨hmain, ?_, ?_⟩
  · intro h
    obtain ⟨c, hc⟩ := hmain
    exact ⟨c, by rw [hc, getEach_absent factory self ids h calls]⟩
  · intro held fresh hprepare hquery hfactory hheld
    unfold Internal.Lookup
    rw [lookupIds_of_stored factory self held fresh hprepare hfactory ids hquery hheld calls
      Stream.make rfl]
    simp [Stream.make, Stream.close]

theorem Lookup_emits_successful_gets_in_request_order_witness :
    (∀ id ∈ [3, 1, 2], (threeHeld id).id = id ∧ (threeHeld id).flag < 256 ∧
      (threeHeld id).stored ∈ (NewInternal threeDB).Store.rows ∧
      ∀ r ∈ (NewInternal threeDB).Store.rows, r.id = some id → r = (threeHeld id).stored) ∧
    (NewInternal threeDB).Lookup okFactory 0 [3, 1, 2] =
      .ok (⟨[.internal ⟨3, [172], 30, 30, 3, "memo", "cli", [], 0⟩,
             .internal ⟨1, [170], 10, 20, 1, "note", "web-ui", [1, 2], 1⟩,
             .internal ⟨2, [171], 15, 25, 2, "note", "api", [], 2⟩], true⟩, 3) ∧
    (∃ calls1, (NewInternal threeDB).Lookup okFactory 0 [999] = .ok (⟨[], true⟩, calls1)) :=
  ⟨by decide,
    ((Lookup_emits_successful_gets_in_request_order okFactory (NewInternal threeDB) 0
      [3, 1, 2]).2.2 threeHeld okFresh ⟨_, rfl⟩ (fun _ _ => ⟨_, rfl⟩) (fun _ => rfl)
      (by decide)).trans rfl,
    (Lookup_emits_successful_gets_in_request_order okFactory (NewInternal threeDB) 0
      [999]).2.1 (by decide)⟩

theorem store_crates (id : Int) (self : Internal) (entity : Entity) :
    (self.store entity).Crates id =
      match entity with
      | .internal e => if e.ID = id then some e else self.Crates id
      | _ => self.Crates id := by
  cases entity with
  | nil => rfl
  | foreign t => rfl
  | internal e =>
    simp only [Internal.store]
    by_cases h : e.ID = id
    · simp [h]
    · have h2 : ¬ id = e.ID := fun h3 => h h3.symm
      simp [h, h2]

theorem foldl_store_crates (id : Int) (l : List Entity) :
    ∀ self : Internal, (l.foldl Internal.store self).Crates id =
      match lastWithID id l with
      | some e => some e
      | none => self.Crates id := by
  induction l with
  | nil => intro self; rfl
  | cons entity rest ih =>
    intro self
    rw [List.foldl_cons, ih, lastWithID]
    cases hl : lastWithID id rest with
    | some e => rfl
    | none =>
      simp only [store_crates]
      cases entity with
      | nil => rfl
      | foreign t => rfl
      | internal e =>
        by_cases h : e.ID = id
        · simp [withID, h]
        · simp [withID, h]

theorem foldl_store_Store (l : List Entity) :
    ∀ self : Internal, (l.foldl Internal.store self).Store = self.Store := by
  induction l with
  | nil => intro self; rfl
  | cons entity rest ih =>
    intro self
    rw [List.foldl_cons, ih]
    cases entity <;> rfl

theorem foldl_store_filter (l : List Entity) :
    ∀ self : Internal, (l.filter isInternal).foldl Internal.store self =
      l.foldl Internal.store self := by
  induction l with
  | nil => intro self; rfl
  | cons entity rest ih =>
    intro self
    cases entity with
    | nil => simpa [isInternal, Internal.store] using ih self
    | foreign t => simpa [isInternal, Internal.store] using ih self
    | internal e => simpa [isInternal] using ih (self.store (.internal e))

theorem lastWithID_some_of_mem (id : Int) (l : List Entity)
    (h : ∃ e ∈ l, entityID e = some id) : ∃ v, lastWithID id l = some v := by
  induction l with
  | nil => obtain ⟨e, he, _⟩ := h; cases he
  | cons entity rest ih =>
    rw [lastWithID]
    cases hl : lastWithID id rest with
    | some v => exact ⟨v, rfl⟩
    | none =>
      obtain ⟨e, he, hid⟩ := h
      rcases List.mem_cons.mp he with rfl | hrest
      · cases e with
        | nil => cases hid
        | foreign t => cases hid
        | internal i =>
          simp only [entityID, Option.some.injEq] at hid
          exact ⟨i, by simp [withID, hid]⟩
      · obtain ⟨v, hv⟩ := ih ⟨e, hrest, hid⟩
        rw [hl] at hv
        cases hv

theorem lastWithID_spec (id : Int) (l : List Entity) (v : model.Internal)
    (h : lastWithID id l = some v) :
    v.ID = id ∧ ∃ pre post, l = pre ++ Entity.internal v :: post ∧
      ∀ e ∈ post, entityID e ≠ some id := by
  induction l with
  | nil => cases h
  | cons entity rest ih =>
    rw [lastWithID] at h
    cases hl : lastWithID id rest with
    | some w =>
      rw [hl] at h
      simp only [Option.some.injEq] at h
      subst h
      obtain ⟨hid, pre, post, hpp, hpost⟩ := ih hl
      exact ⟨hid, entity :: pre, post, by rw [hpp]; rfl, hpost⟩
    | none =>
      rw [hl] at h
      cases entity with
      | nil => cases h
      | foreign t => cases h
      | internal e =>
        simp only [withID] at h
        by_cases hid : e.ID = id
        · simp only [hid, if_true, Option.some.injEq] at h
          subst h
          refine ⟨hid, [], rest, rfl, ?_⟩
          intro x hx hxid
          obtain ⟨w, hw⟩ := lastWithID_some_of_mem id rest ⟨x, hx, hxid⟩
          rw [hl] at hw
          cases hw
        · simp [hid] at h

/-- C5: for every index and every two finite (closed) streams that each
contain a `*model.Internal` with the same `ID`, `Load(first)` followed by
`Load(second)` returns; after the first `Load` the index maps that `ID` to
the last element of the first stream with that `ID`, and after the second it
maps that `ID` to one value only: the last element of the second stream with
that `ID`. -/
theorem Load_twice_last_write_wins (self : Internal) (first second : Stream) (id : Int)
    (hfirst : first.closed = true) (hsecond : second.closed = true)
    (h1 : ∃ e ∈ first.sent, entityID e = some id)
    (h2 : ∃ e ∈ second.sent, entityID e = some id) :
    ∃ (mid loaded : Internal) (u v : model.Internal),
      self.Load first = some mid ∧
      mid.Crates id = some u ∧ lastWithID id first.sent = some u ∧
      mid.Load second = some loaded ∧
      loaded.Crates id = some v ∧ (∀ w, loaded.Crates id = some w → w = v) ∧
      lastWithID id second.sent = some v ∧ v.ID = id ∧
      ∃ pre post, second.sent = pre ++ Entity.internal v :: post ∧
        ∀ e ∈ post, entityID e ≠ some id := by
  obtain ⟨u, hu⟩ := lastWithID_some_of_mem id first.sent h1
  obtain ⟨v, hv⟩ := lastWithID_some_of_mem id second.sent h2
  obtain ⟨hid, hsplit⟩ := lastWithID_spec id second.sent v hv
  have hmid : (first.sent.foldl Internal.store self).Crates id = some u := by
    rw [foldl_store_crates, hu]
  have hloaded :
      (second.sent.foldl Internal.store (first.sent.foldl Internal.store self)).Crates id
        = some v := by
    rw [foldl_store_crates, hv]
  refine ⟨first.sent.foldl Internal.store self,
    second.sent.foldl Internal.store (first.sent.foldl Internal.store self), u, v,
    by simp [Internal.Load, hfirst], hmid, hu, by simp [Internal.Load, hsecond], hloaded, ?_,
    hv, hid, hsplit⟩
  intro w hw
  rw [hloaded] at hw
  exact (Option.some.inj hw).symm

theorem Load_twice_last_write_wins_witness :
    (∃ e ∈ (Stream.mk [.internal draft] true).sent, entityID e = some 1) ∧
    (∃ e ∈ (Stream.mk [.internal draft, .foreign 3, .internal revised, .nil] true).sent,
      entityID e = some 1) ∧
    ∃ (mid loaded : Internal) (u v : model.Internal),
      (NewInternal noteDB).Load (Stream.mk [.internal draft] true) = some mid ∧
      mid.Crates 1 = some u ∧ lastWithID 1 (Stream.mk [.internal draft] true).sent = some u ∧
      mid.Load (Stream.mk [.internal draft, .foreign 3, .internal revised, .nil] true) =
        some loaded ∧
      loaded.Crates 1 = some v ∧ (∀ w, loaded.Crates 1 = some w → w = v) ∧
      lastWithID 1 (Stream.mk [.internal draft, .foreign 3, .internal revised, .nil] true).sent
        = some v ∧ v.ID = 1 ∧
      ∃ pre post, (Stream.mk [.internal draft, .foreign 3, .internal revised, .nil] true).sent =
          pre ++ Entity.internal v :: post ∧
        ∀ e ∈ post, entityID e ≠ some 1 :=
  ⟨⟨.internal draft, by simp, rfl⟩, ⟨.internal revised, by simp, rfl⟩,
    Load_twice_last_write_wins (NewInternal noteDB) (Stream.mk [.internal draft] true)
      (Stream.mk [.internal draft, .foreign 3, .internal revised, .nil] true) 1 rfl rfl
      ⟨.internal draft, by simp, rfl⟩ ⟨.internal revised, by simp, rfl⟩⟩

/-- C10: `Load` of a finite (closed) stream returns; the store is
untouched; every `ID` that was in the index is still in it; every `ID` that
is not the `ID` of a `*model.Internal` of the stream maps to the value it had
before; and the elements of any other kind change nothing: the result is the
one of loading the stream without them. -/
theorem Load_only_adds_or_overwrites (self : Internal) (stream : Stream)
    (hclosed : stream.closed = true) :
    ∃ loaded : Internal, self.Load stream = some loaded ∧
      loaded.Store = self.Store ∧
      (∀ id, (self.Crates id).isSome = true → (loaded.Crates id).isSome = true) ∧
      (∀ id, (∀ e ∈ stream.sent, entityID e ≠ some id) →
        loaded.Crates id = self.Crates id) ∧
      self.Load { stream with sent := stream.sent.filter isInternal } = some loaded := by
  refine ⟨stream.sent.foldl Internal.store self, by simp [Internal.Load, hclosed],
    foldl_store_Store _ _, ?_, ?_, ?_⟩
  · intro id h
    rw [foldl_store_crates]
    cases lastWithID id stream.sent with
    | some v => rfl
    | none => exact h
  · intro id h
    rw [foldl_store_crates]
    cases hl : lastWithID id stream.sent with
    | none => rfl
    | some v =>
      obtain ⟨hid, pre, post, hpp, _⟩ := lastWithID_spec id stream.sent v hl
      exact absurd (by simp [entityID, hid]) (h (.internal v) (by rw [hpp]; simp))
  · simp [Internal.Load, hclosed, foldl_store_filter]

theorem Load_only_adds_or_overwrites_witness :
    (Stream.mk [.foreign 3, .internal revised, .nil] true).closed = true ∧
    ∃ loaded : Internal,
      (NewInternal noteDB).Load (Stream.mk [.foreign 3, .internal revised, .nil] true) =
        some loaded ∧
      loaded.Store = (NewInternal noteDB).Store ∧
      (∀ id, ((NewInternal noteDB).Crates id).isSome = true →
        (loaded.Crates id).isSome = true) ∧
      (∀ id, (∀ e ∈ (Stream.mk [.foreign 3, .internal revised, .nil] true).sent,
        entityID e ≠ some id) → loaded.Crates id = (NewInternal noteDB).Crates id) ∧
      (NewInternal noteDB).Load
        { Stream.mk [.foreign 3, .internal revised, .nil] true with
          sent := (Stream.mk [.foreign 3, .internal revised, .nil] true).sent.filter isInternal }
        = some loaded :=
  ⟨rfl, Load_only_adds_or_overwrites (NewInternal noteDB)
    (Stream.mk [.foreign 3, .internal revised, .nil] true) rfl⟩

theorem holds_gtAndLt (e : Engine) (field : String) (t0 t1 : Time) (r : Row) :
    Where.holds e (.gtAndLt field field) [Arg.time t0, Arg.time t1] r =
      r.strictlyBetween e field t0 t1 := by
  simp only [Where.holds, Row.test, Row.strictlyBetween]
  cases hc : r.col field with
  | none => rfl
  | some v => rfl

theorem Equals_eq_scan (factory : Factory) (self : Internal) (calls : Nat)
    (field search : String) :
    self.Equals factory calls field search =
      self.scan factory calls ⟨true, .eq field⟩ [Arg.text search] := rfl

theorem Before_eq_scan (factory : Factory) (self : Internal) (calls : Nat)
    (field : String) (search : Time) :
    self.Before factory calls field search =
      self.scan factory calls ⟨true, .lt field⟩ [Arg.time search] := rfl

theorem After_eq_scan (factory : Factory) (self : Internal) (calls : Nat)
    (field : String) (search : Time) :
    self.After factory calls field search =
      self.scan factory calls ⟨true, .gt field⟩ [Arg.time search] := rfl

theorem Between_eq_scan (factory : Factory) (self : Internal) (calls : Nat)
    (field : String) (before after : Time) :
    self.Between factory calls field before after =
      self.scan factory calls ⟨true, .gtAndLt field field⟩
        [Arg.time before, Arg.time after] := rfl

/-- What the goroutine of a filtered scan leaves when the statement is
prepared and executed: the pump over the selected rows. -/
theorem scan_of_success (factory : Factory) (self : Internal) (calls : Nat)
    (text : Statement) (args : List Arg)
    (hprepare : ∃ st, self.Store.Prepare text = .ok st)
    (hquery : ∃ rows, self.Store.Query text args = .ok rows) :
    self.scan factory calls text args =
      self.Process factory calls Stream.make
        (self.Store.rows.filter (fun r => text.cond.holds self.Store.engine args r)) := by
  obtain ⟨st, hst⟩ := hprepare
  obtain ⟨rows, hrows⟩ := hquery
  have hst2 : st = text := by
    unfold DB.Prepare at hst
    cases hpf : self.Store.prepareFault text with
    | some e => rw [hpf] at hst; cases hst
    | none =>
      rw [hpf] at hst
      simp only at hst
      cases hf : List.find? (fun f => !isColumn f) text.cond.fields with
      | some f => rw [hf] at hst; cases hst
      | none => rw [hf] at hst; cases hst; rfl
  subst hst2
  have hrows2 : rows = self.Store.rows.filter
      (fun r => st.cond.holds self.Store.engine args r) := by
    unfold DB.Query at hrows
    cases hqf : self.Store.queryFault st args with
    | some e => rw [hqf] at hrows; cases hrows
    | none =>
      rw [hqf] at hrows
      simp only at hrows
      by_cases hlen : args.length = st.cond.arity
      · rw [if_pos hlen] at hrows; cases hrows; rfl
      · rw [if_neg hlen] at hrows; cases hrows
  subst hrows2
  unfold Internal.scan
  simp only [hst, hrows]

/-- What the goroutine of a filtered scan leaves when the statement cannot
be prepared or executed: the stream as `make` returned it, open and empty. -/
theorem scan_of_failure (factory : Factory) (self : Internal) (calls : Nat)
    (text : Statement) (args : List Arg)
    (h : (∃ e, self.Store.Prepare text = .error e) ∨
      (∃ e, self.Store.Query text args = .error e)) :
    self.scan factory calls text args = .ok (⟨[], false⟩, calls) := by
  unfold Internal.scan
  cases hp : self.Store.Prepare text with
  | error e => rfl
  | ok st =>
    have hst2 : st = text := by
      unfold DB.Prepare at hp
      cases hpf : self.Store.prepareFault text with
      | some e => rw [hpf] at hp; cases hp
      | none =>
        rw [hpf] at hp
        simp only at hp
        cases hf : List.find? (fun f => !isColumn f) text.cond.fields with
        | some f => rw [hf] at hp; cases hp
        | none => rw [hf] at hp; cases hp; rfl
    subst hst2
    rcases h with ⟨e, he⟩ | ⟨e, he⟩
    · rw [hp] at he; cases he
    · simp only [he]
      rfl

/-- C7, evaluated: on a store whose driver fails to prepare any statement,
each of `All`, `Contains`, `Equals`, `Before`, `After` and `Between` leaves
the stream it returned empty and not closed, and the same holds when the
execution fails or the field names no column; `Load` of such a stream never
returns. -/
theorem failed_scan_leaves_the_stream_open :
    (NewInternal downDB).All okFactory 0 = .ok (⟨[], false⟩, 0) ∧
    (NewInternal downDB).Contains okFactory 0 "origin" "web" = .ok (⟨[], false⟩, 0) ∧
    (NewInternal downDB).Equals okFactory 0 "type" "note" = .ok (⟨[], false⟩, 0) ∧
    (NewInternal downDB).Before okFactory 0 "added" 100 = .ok (⟨[], false⟩, 0) ∧
    (NewInternal downDB).After okFactory 0 "added" 0 = .ok (⟨[], false⟩, 0) ∧
    (NewInternal downDB).Between okFactory 0 "added" 0 100 = .ok (⟨[], false⟩, 0) ∧
    (NewInternal brokenDB).All okFactory 0 = .ok (⟨[], false⟩, 0) ∧
    (NewInternal brokenDB).Contains okFactory 0 "origin" "web" = .ok (⟨[], false⟩, 0) ∧
    (NewInternal noteDB).Contains okFactory 0 "nope" "web" = .ok (⟨[], false⟩, 0) ∧
    (NewInternal noteDB).Load ⟨[], false⟩ = none :=
  ⟨rfl, rfl, rfl, rfl, rfl, rfl, rfl, rfl, rfl, rfl⟩

/-- C9 as stated fails: the store `downDB` holds a row whose `added` value,
instant 10, lies strictly between the instants 0 and 100, and
`Between("added", 0, 100)` yields no entity, because the statement cannot be
prepared. -/
theorem Between_needs_the_query_to_run :
    noteRow ∈ downDB.rows ∧
    noteRow.col "added" = some (.time 10) ∧
    ((0 : Time).instant < (10 : Time).instant ∧ (10 : Time).instant < (100 : Time).instant) ∧
    noteRow.strictlyBetween downDB.engine "added" 0 100 = true ∧
    (NewInternal downDB).Between okFactory 0 "added" 0 100 = .ok (⟨[], false⟩, 0) :=
  ⟨by decide, rfl, by decide, rfl, rfl⟩

/-- C9, amended: on a store that prepares and executes the range query
without error, `Between(field, t0, t1)` yields exactly the entities imported
from the rows whose `field` value `v` the store ranks strictly above `t0`
and strictly below `t1`, in storage order, and closes the stream: the first
argument is bound as the lower bound and the second as the upper bound, and
a row whose value the store ranks equal to `t0` or to `t1` is left out. On a
store that ranks timestamps by their instants, the rows of a timestamp
column that are yielded are those with `t0 < v < t1` as instants. -/
theorem Between_yields_the_open_interval (factory : Factory) (self : Internal)
    (calls : Nat) (field : String) (t0 t1 : Time)
    (hprepare : ∃ st, self.Store.Prepare ⟨true, .gtAndLt field field⟩ = .ok st)
    (hquery : ∃ rows, self.Store.Query ⟨true, .gtAndLt field field⟩
      [Arg.time t0, Arg.time t1] = .ok rows) :
    self.Between factory calls field t0 t1 =
      .ok (⟨self.emitted factory calls
              (self.Store.rows.filter
                (fun r => r.strictlyBetween self.Store.engine field t0 t1)), true⟩,
        calls + (decodable (self.Store.rows.filter
          (fun r => r.strictlyBetween self.Store.engine field t0 t1))).length) ∧
    (∀ r : Row, r.strictlyBetween self.Store.engine field t0 t1 = true ↔
      ∃ v, r.col field = some v ∧
        self.Store.engine.compare v (.time t0) = some .gt ∧
        self.Store.engine.compare v (.time t1) = some .lt) ∧
    (∀ (r : Row) (v : Val), r.col field = some v →
      self.Store.engine.compare v (.time t0) = some .eq ∨
        self.Store.engine.compare v (.time t1) = some .eq →
      r.strictlyBetween self.Store.engine field t0 t1 = false) ∧
    (self.Store.engine.ranksInstants →
      ∀ (r : Row) (v : Time), r.col field = some (.time v) →
        (r.strictlyBetween self.Store.engine field t0 t1 = true ↔
          t0.instant < v.instant ∧ v.instant < t1.instant)) := by
  refine ⟨?_, ?_, ?_, ?_⟩
  · rw [Between_eq_scan, scan_of_success factory self calls _ _ hprepare hquery,
      Process_eq factory self calls Stream.make _ rfl]
    have hf : self.Store.rows.filter
        (fun r => Where.holds self.Store.engine (.gtAndLt field field)
          [Arg.time t0, Arg.time t1] r) =
        self.Store.rows.filter (fun r => r.strictlyBetween self.Store.engine field t0 t1) :=
      List.filter_congr (fun r _ => holds_gtAndLt self.Store.engine field t0 t1 r)
    simp only [hf]
    rfl
  · intro r
    unfold Row.strictlyBetween
    cases hc : r.col field with
    | none => simp
    | some v => simp [Engine.ranks]
  · intro r v hv h
    unfold Row.strictlyBetween
    rw [hv]
    rcases h with h | h <;> simp [Engine.ranks, h]
  · intro hrank r v hv
    unfold Row.strictlyBetween
    rw [hv]
    simp only [Engine.ranks, hrank v t0, hrank v t1, Bool.and_eq_true, decide_eq_true_eq,
      Option.some.injEq]
    rw [compare_gt_iff_gt, compare_lt_iff_lt]

theorem Between_yields_the_open_interval_witness :
    (∃ st, (NewInternal threeDB).Store.Prepare ⟨true, .gtAndLt "added" "added"⟩ = .ok st) ∧
    ((NewInternal threeDB).Between okFactory 0 "added" 10 30 =
      .ok (⟨(NewInternal threeDB).emitted okFactory 0
              ((NewInternal threeDB).Store.rows.filter
                (fun r => r.strictlyBetween (NewInternal threeDB).Store.engine "added" 10 30)),
            true⟩,
        0 + (decodable ((NewInternal threeDB).Store.rows.filter
          (fun r =>
            r.strictlyBetween (NewInternal threeDB).Store.engine "added" 10 30))).length) ∧
    (∀ r : Row, r.strictlyBetween (NewInternal threeDB).Store.engine "added" 10 30 = true ↔
      ∃ v, r.col "added" = some v ∧
        (NewInternal threeDB).Store.engine.compare v (.time 10) = some .gt ∧
        (NewInternal threeDB).Store.engine.compare v (.time 30) = some .lt) ∧
    (∀ (r : Row) (v : Val), r.col "added" = some v →
      (NewInternal threeDB).Store.engine.compare v (.time 10) = some .eq ∨
        (NewInternal threeDB).Store.engine.compare v (.time 30) = some .eq →
      r.strictlyBetween (NewInternal threeDB).Store.engine "added" 10 30 = false) ∧
    ((NewInternal threeDB).Store.engine.ranksInstants →
      ∀ (r : Row) (v : Time), r.col "added" = some (.time v) →
        (r.strictlyBetween (NewInternal threeDB).Store.engine "added" 10 30 = true ↔
          (10 : Time).instant < v.instant ∧ v.instant < (30 : Time).instant))) ∧
    (NewInternal threeDB).Store.engine.ranksInstants ∧
    (NewInternal threeDB).emitted okFactory 0
        ((NewInternal threeDB).Store.rows.filter
          (fun r => r.strictlyBetween (NewInternal threeDB).Store.engine "added" 10 30)) =
      [.internal ⟨2, [171], 15, 25, 2, "note", "api", [], 0⟩] ∧
    (NewInternal zonedDB).Between okFactory 0 "added" 0 7200 = .ok (⟨[], true⟩, 0) :=
  ⟨⟨_, rfl⟩,
    Between_yields_the_open_interval okFactory (NewInternal threeDB) 0 "added" 10 30
      ⟨_, rfl⟩ ⟨_, rfl⟩,
    fun _ _ => rfl, rfl,
    ((Between_yields_the_open_interval okFactory (NewInternal zonedDB) 0 "added" 0 7200
      ⟨_, rfl⟩ ⟨_, rfl⟩).1).trans rfl⟩

end repo
